import Mathlib

/-!
Verification of the cubelaunch-packages core (Minecraft launcher library).

The JavaScript sources are embedded shallowly: JS strings become `List Char`,
JS objects become structures, absent/null fields become `Option`, thrown
exceptions become `Except`, and `async` functions are modelled by the values
their promises resolve to.  Falsy-string tests (`if (s)`) are modelled as
emptiness tests, matching JS where the only falsy string is `""`.
-/

namespace Launcher

/-- JS strings are modelled as lists of characters. -/
abbrev Str := List Char

deriving instance DecidableEq for Except

/-- JS `String.prototype.split(sep)` for a one-character separator:
always returns at least one (possibly empty) piece. -/
def splitOnC (sep : Char) : Str → List Str
  | [] => [[]]
  | c :: rest =>
    match splitOnC sep rest with
    | [] => [[]]
    | h :: t => if c = sep then [] :: h :: t else (c :: h) :: t

/-- JS `Array.prototype.join(sep)` for a one-character separator. -/
def joinWith (sep : Char) (l : List Str) : Str :=
  (l.intersperse [sep]).flatten

theorem splitOnC_ne_nil (sep : Char) (s : Str) : splitOnC sep s ≠ [] := by
  cases s with
  | nil => simp [splitOnC]
  | cons c rest =>
    simp only [splitOnC]
    rcases h : splitOnC sep rest with _ | ⟨h', t'⟩
    · simp
    · by_cases hc : c = sep <;> simp [hc]

theorem splitOnC_of_not_mem (sep : Char) (s : Str) (h : sep ∉ s) :
    splitOnC sep s = [s] := by
  induction s with
  | nil => rfl
  | cons c rest ih =>
    simp only [List.mem_cons, not_or] at h
    have hc : ¬(c = sep) := fun he => h.1 he.symm
    simp only [splitOnC, ih h.2, if_neg hc]

theorem splitOnC_append_cons (sep : Char) (x y : Str) :
    splitOnC sep (x ++ sep :: y) = splitOnC sep x ++ splitOnC sep y := by
  induction x with
  | nil =>
    simp only [List.nil_append, splitOnC]
    rcases h : splitOnC sep y with _ | ⟨h', t'⟩
    · exact absurd h (splitOnC_ne_nil sep y)
    · simp
  | cons c x' ih =>
    rcases h : splitOnC sep x' with _ | ⟨h', t'⟩
    · exact absurd h (splitOnC_ne_nil sep x')
    · rw [List.cons_append]
      simp only [splitOnC]
      rw [ih, h]
      by_cases hc : c = sep <;> simp [hc]

theorem joinWith_splitOnC (sep : Char) (s : Str) :
    joinWith sep (splitOnC sep s) = s := by
  induction s with
  | nil => rfl
  | cons c rest ih =>
    rcases h : splitOnC sep rest with _ | ⟨h', t'⟩
    · exact absurd h (splitOnC_ne_nil sep rest)
    · rw [h] at ih
      simp only [splitOnC, h]
      by_cases hc : c = sep
      · subst hc
        simp only [if_pos rfl]
        simpa [joinWith, List.intersperse] using ih
      · rw [if_neg hc]
        cases t' with
        | nil => simpa [joinWith, List.intersperse] using ih
        | cons a b =>
          simp only [joinWith, List.intersperse, List.flatten] at ih ⊢
          simpa using ih

/-- JS `String.prototype.substring(a, b)`: clamps both indices to the string
length and swaps them when `a > b`. -/
def jsSubstring (s : Str) (a b : Nat) : Str :=
  let a' := min a s.length
  let b' := min b s.length
  (s.take (max a' b')).drop (min a' b')

/-- JS `String.prototype.replace(pat, repl)` with a plain-string pattern:
replaces only the first occurrence (the replacement is spliced verbatim;
none of the sources' replacement strings contain `$`-escapes). -/
def replaceFirst (pat repl : Str) : Str → Str
  | [] => if pat = [] then repl else []
  | c :: rest =>
    if pat.isPrefixOf (c :: rest) then repl ++ (c :: rest).drop pat.length
    else c :: replaceFirst pat repl rest

/-- Node `path.extname`: the part of the file name from its last dot, or the
empty string when there is no dot or the only relevant dot is the leading one. -/
def extname (file : Str) : Str :=
  let revAfter := file.reverse.takeWhile (fun c => ¬(c = '.'))
  if revAfter.length = file.length then []
  else if revAfter.length + 1 = file.length then []
  else '.' :: revAfter.reverse

theorem takeWhile_append_stop {p : Char → Bool} (l : Str) (c : Char) (r : Str)
    (hl : ∀ x ∈ l, p x) (hc : p c = false) :
    (l ++ c :: r).takeWhile p = l := by
  induction l with
  | nil => simp [List.takeWhile_cons_of_neg, hc]
  | cons a l' ih =>
    have ha : p a = true := hl a (by simp)
    rw [List.cons_append, List.takeWhile_cons_of_pos ha,
      ih (fun x hx => hl x (by simp [hx]))]

theorem extname_concat (x t : Str) (hx : x ≠ []) (ht : '.' ∉ t) :
    extname (x ++ '.' :: t) = '.' :: t := by
  have hrev : (x ++ '.' :: t).reverse = t.reverse ++ '.' :: x.reverse := by
    simp
  have htake : ((x ++ '.' :: t).reverse).takeWhile (fun c => ¬(c = '.')) = t.reverse := by
    rw [hrev]
    refine takeWhile_append_stop _ _ _ (fun c hc => ?_) (by simp)
    simp only [List.mem_reverse] at hc
    have hne : ¬(c = '.') := fun h => ht (h ▸ hc)
    simp [hne]
  have hlen : (x ++ '.' :: t).length = x.length + 1 + t.length := by
    simp [List.length_append]; omega
  have hxlen : 0 < x.length := List.length_pos.mpr hx
  simp only [extname, htake, List.length_reverse, List.reverse_reverse, hlen]
  rw [if_neg (by omega), if_neg (by omega)]

/-! Platform and rule evaluation (src/packages/core/files/platform.js and
`Version.checkAllowed` in the version module). -/

/-- Result of `getPlatform()`: OS family name, OS release string, CPU arch. -/
structure Platform where
  name : Str
  version : Str
  arch : Str
deriving DecidableEq, Repr

/-- The `os` clause of a rule; every field may be absent. -/
structure OsRule where
  name : Option Str := none
  version : Option Str := none
  arch : Option Str := none
deriving DecidableEq, Repr

/-- One allow/disallow rule. -/
structure Rule where
  action : Str
  os : Option OsRule := none
  features : Option (List (Str × Bool)) := none
deriving DecidableEq, Repr

def allowStr : Str := "allow".toList

/-- Oracle for JS `subject.match(pattern)` (unanchored regex search, coerced
to a boolean).  Both the source and the spec defer to the same JS regex
semantics, so it is kept abstract and quantified over. -/
abbrev RMatch := Str → Str → Bool

/-- JS `platform.name === osRule.name`: when `osRule.name` is absent the
strict equality of a string with `undefined` is false. -/
def osNameMatches (platform : Platform) : Option Str → Bool
  | some n => decide (platform.name = n)
  | none => false

/-- JS `!osRule.version || platform.version.match(osRule.version)`: absent or
empty pattern passes, otherwise the regex oracle decides. -/
def osVersionMatches (rmatch : RMatch) (platform : Platform) : Option Str → Bool
  | none => true
  | some p => if p = [] then true else rmatch platform.version p

/-- The `os` part of the loop body of `Version.checkAllowed` (version.js):
`platform.name === osRule.name && (!osRule.version || platform.version.match(osRule.version))`.
`osRule.arch` is never read. -/
def osClauseApplies (rmatch : RMatch) (platform : Platform) (osRule : OsRule) : Bool :=
  osNameMatches platform osRule.name && osVersionMatches rmatch platform osRule.version

/-- The `if ('os' in rule && rule.os)` guard: a rule without an `os` clause
provisionally applies. -/
def osPartApplies (rmatch : RMatch) (platform : Platform) : Option OsRule → Bool
  | none => true
  | some osRule => osClauseApplies rmatch platform osRule

/-- The `features` part of the loop body:
`Object.entries(featureRequire).every(([k, v]) => v ? features.indexOf(k) !== -1 : features.indexOf(k) === -1)`. -/
def featuresClauseApplies (freq : List (Str × Bool)) (features : List Str) : Bool :=
  freq.all (fun kv => if kv.2 then features.contains kv.1 else !(features.contains kv.1))

/-- The `if ('features' in rule && rule.features)` refinement, entered only
when the rule still applies. -/
def featsPartApply (features : List Str) (apply1 : Bool) :
    Option (List (Str × Bool)) → Bool
  | none => apply1
  | some freq => featuresClauseApplies freq features

/-- One iteration of the rule loop of `Version.checkAllowed`. -/
def checkAllowedStep (rmatch : RMatch) (platform : Platform) (features : List Str)
    (allow : Bool) (rule : Rule) : Bool :=
  let action := decide (rule.action = allowStr)
  let apply1 : Bool := osPartApplies rmatch platform rule.os
  let apply2 : Bool :=
    if apply1 then featsPartApply features apply1 rule.features else apply1
  if apply2 then action else allow

/-- `Version.checkAllowed(rules, platform, features)` (version.js lines 104-139). -/
def Version.checkAllowed (rmatch : RMatch) (rules : List Rule) (platform : Platform)
    (features : List Str) : Bool :=
  if rules.isEmpty then true
  else rules.foldl (checkAllowedStep rmatch platform features) false

/-! Library coordinates (the `LibraryInfo` operations of version.js:
`resolve` parses a Maven coordinate, `resolveFromPath` parses a repository
path back into a coordinate). -/

structure LibraryInfo where
  type : Str
  groupId : Str
  artifactId : Str
  version : Str
  classifier : Str
  name : Str
  path : Str
  isSnapshot : Bool
deriving DecidableEq, Repr

def jarStr : Str := "jar".toList

def snapshotSuffix : Str := "-SNAPSHOT".toList

def dotToSlash (c : Char) : Char := if c = '.' then '/' else c

/-- `resolve(lib)` (version.js lines 50-71).  Fewer than three `:`-separated
parts make the JS code dereference `undefined` (a crash), modelled as `none`. -/
def LibraryInfo.resolve (name : Str) : Option LibraryInfo :=
  let atParts := splitOnC '@' name
  let body := atParts.headD []
  let type := match atParts[1]? with | some t => t | none => jarStr
  match splitOnC ':' body with
  | groupId :: artifactId :: version :: rest =>
    let classifier := rest.headD []
    let isSnapshot := snapshotSuffix.isSuffixOf version
    let groupPath := groupId.map dotToSlash
    let base := groupPath ++ '/' :: artifactId ++ '/' :: version ++ '/' :: artifactId
      ++ '-' :: version
    let base' := if classifier ≠ [] then base ++ '-' :: classifier else base
    some { type, groupId, artifactId, version, name, isSnapshot, classifier,
           path := base' ++ '.' :: type }
  | _ => none

/-- `resolveFromPath(path)` (version.js lines 11-48).  Fewer than three
`/`-separated segments make the JS code work on `undefined` values
(producing meaningless coerced strings), modelled as `none`; every path
built by `LibraryInfo.resolve` has at least four segments. -/
def resolveFromPath (path : Str) : Option LibraryInfo :=
  let parts := splitOnC '/' path
  match parts.reverse with
  | file :: version :: artifactId :: revGroups =>
    let groupId := joinWith '.' revGroups.reverse
    let filePrefix := artifactId ++ '-' :: version
    let ext := extname file
    let type := ext.drop 1
    let isSnapshot := version.isPrefixOf file
    let classifier0 :=
      jsSubstring file (if isSnapshot then version.length else filePrefix.length)
        (file.length - ext.length)
    let classifier :=
      match classifier0 with
      | '-' :: cs => cs
      | other => other
    let name := groupId ++ ':' :: artifactId ++ ':' :: version
      ++ (if classifier ≠ [] then ':' :: classifier else [])
      ++ (if type ≠ jarStr then '@' :: type else [])
    some { type, groupId, artifactId, version, classifier, name, path, isSnapshot }
  | _ => none

/-- Builds the coordinate string `g:a:v[:cl][@t]` (classifier present iff
nonempty, type part present iff given). -/
def mkCoordName (g a v cl : Str) (t : Option Str) : Str :=
  g ++ ':' :: a ++ ':' :: v ++ (if cl = [] then [] else ':' :: cl)
    ++ (match t with | some ty => '@' :: ty | none => [])

/-- The canonical file name `{a}-{v}[-{cl}].{ty}`. -/
def canonicalFile (a v cl ty : Str) : Str :=
  a ++ '-' :: v ++ (if cl = [] then [] else '-' :: cl) ++ '.' :: ty

/-- The canonical repository path `{g-with-slashes}/{a}/{v}/{a}-{v}[-{cl}].{ty}`. -/
def canonicalPath (g a v cl ty : Str) : Str :=
  g.map dotToSlash ++ '/' :: a ++ '/' :: v ++ '/' :: canonicalFile a v cl ty

theorem splitSlash_mapDot (g : Str) (h : '/' ∉ g) :
    splitOnC '/' (g.map dotToSlash) = splitOnC '.' g := by
  induction g with
  | nil => rfl
  | cons c g' ih =>
    simp only [List.mem_cons, not_or] at h
    have ih' := ih h.2
    simp only [List.map_cons, splitOnC]
    rw [ih']
    rcases hs : splitOnC '.' g' with _ | ⟨h', t'⟩
    · exact absurd hs (splitOnC_ne_nil _ _)
    · by_cases hc : c = '.'
      · subst hc; simp [dotToSlash]
      · have h1 : dotToSlash c = c := by simp [dotToSlash, hc]
        have h2 : ¬(c = '/') := fun he => h.1 he.symm
        simp [h1, hc, h2]

theorem resolve_mkCoordName (g a v cl : Str) (t : Option Str)
    (hg1 : ':' ∉ g) (ha1 : ':' ∉ a) (hv1 : ':' ∉ v) (hc1 : ':' ∉ cl)
    (hg2 : '@' ∉ g) (ha2 : '@' ∉ a) (hv2 : '@' ∉ v) (hc2 : '@' ∉ cl)
    (ht2 : ∀ ty, t = some ty → '@' ∉ ty) :
    LibraryInfo.resolve (mkCoordName g a v cl t) =
      some { type := t.getD jarStr, groupId := g, artifactId := a, version := v,
             classifier := cl, name := mkCoordName g a v cl t,
             path := canonicalPath g a v cl (t.getD jarStr),
             isSnapshot := snapshotSuffix.isSuffixOf v } := by
  have hbody : ∀ clp : Str,
      splitOnC ':' (g ++ ':' :: (a ++ ':' :: (v ++ clp))) = [g, a] ++ splitOnC ':' (v ++ clp) := by
    intro clp
    rw [splitOnC_append_cons, splitOnC_append_cons, splitOnC_of_not_mem ':' g hg1,
      splitOnC_of_not_mem ':' a ha1]
    rfl
  rcases t with _ | ty
  · by_cases hcl : cl = []
    · subst hcl
      have hname : mkCoordName g a v [] none = g ++ ':' :: (a ++ ':' :: (v ++ [])) := by
        simp [mkCoordName, List.append_assoc]
      have hat : '@' ∉ mkCoordName g a v [] none := by
        rw [hname]
        simp only [List.mem_append, List.mem_cons, List.append_nil, not_or]
        refine ⟨hg2, by decide, ha2, by decide, hv2⟩
      simp only [LibraryInfo.resolve, splitOnC_of_not_mem '@' _ hat, List.headD]
      rw [hname, hbody [], splitOnC_of_not_mem ':' (v ++ []) (by simpa using hv1)]
      simp [canonicalPath, canonicalFile, hname, List.append_assoc]
    · have hname : mkCoordName g a v cl none = g ++ ':' :: (a ++ ':' :: (v ++ ':' :: cl)) := by
        simp [mkCoordName, hcl, List.append_assoc]
      have hat : '@' ∉ mkCoordName g a v cl none := by
        rw [hname]
        simp only [List.mem_append, List.mem_cons, not_or]
        refine ⟨hg2, by decide, ha2, by decide, hv2, by decide, hc2⟩
      simp only [LibraryInfo.resolve, splitOnC_of_not_mem '@' _ hat, List.headD]
      rw [hname, hbody (':' :: cl), splitOnC_append_cons,
        splitOnC_of_not_mem ':' v hv1, splitOnC_of_not_mem ':' cl hc1]
      simp [canonicalPath, canonicalFile, hname, hcl, List.append_assoc]
  · have hty2 : '@' ∉ ty := ht2 ty rfl
    by_cases hcl : cl = []
    · subst hcl
      have hname : mkCoordName g a v [] (some ty)
          = (g ++ ':' :: (a ++ ':' :: (v ++ []))) ++ '@' :: ty := by
        simp [mkCoordName, List.append_assoc]
      have hat : '@' ∉ g ++ ':' :: (a ++ ':' :: (v ++ [])) := by
        simp only [List.mem_append, List.mem_cons, List.append_nil, not_or]
        refine ⟨hg2, by decide, ha2, by decide, hv2⟩
      simp only [LibraryInfo.resolve]
      rw [hname, splitOnC_append_cons, splitOnC_of_not_mem '@' _ hat,
        splitOnC_of_not_mem '@' ty hty2]
      simp only [List.cons_append, List.nil_append, List.headD]
      rw [hbody [], splitOnC_of_not_mem ':' (v ++ []) (by simpa using hv1)]
      simp [canonicalPath, canonicalFile, hname, List.append_assoc]
    · have hname : mkCoordName g a v cl (some ty)
          = (g ++ ':' :: (a ++ ':' :: (v ++ ':' :: cl))) ++ '@' :: ty := by
        simp [mkCoordName, hcl, List.append_assoc]
      have hat : '@' ∉ g ++ ':' :: (a ++ ':' :: (v ++ ':' :: cl)) := by
        simp only [List.mem_append, List.mem_cons, not_or]
        refine ⟨hg2, by decide, ha2, by decide, hv2, by decide, hc2⟩
      simp only [LibraryInfo.resolve]
      rw [hname, splitOnC_append_cons, splitOnC_of_not_mem '@' _ hat,
        splitOnC_of_not_mem '@' ty hty2]
      simp only [List.cons_append, List.nil_append, List.headD]
      rw [hbody (':' :: cl), splitOnC_append_cons,
        splitOnC_of_not_mem ':' v hv1, splitOnC_of_not_mem ':' cl hc1]
      simp [canonicalPath, canonicalFile, hname, hcl, List.append_assoc]

theorem resolveFromPath_canonical (g a v cl ty : Str)
    (hg3 : '/' ∉ g) (ha3 : '/' ∉ a) (hv3 : '/' ∉ v) (hc3 : '/' ∉ cl) (hty3 : '/' ∉ ty)
    (htyd : '.' ∉ ty)
    (hfile : v.isPrefixOf (canonicalFile a v cl ty) = false) :
    resolveFromPath (canonicalPath g a v cl ty) =
      some { type := ty, groupId := g, artifactId := a, version := v, classifier := cl,
             name := g ++ ':' :: a ++ ':' :: v ++ (if cl ≠ [] then ':' :: cl else [])
               ++ (if ty ≠ jarStr then '@' :: ty else []),
             path := canonicalPath g a v cl ty, isSnapshot := false } := by
  have hfileslash : '/' ∉ canonicalFile a v cl ty := by
    by_cases hcl : cl = [] <;>
      simp [canonicalFile, hcl, List.mem_append, ha3, hv3, hc3, hty3]
  have hsplit : splitOnC '/' (canonicalPath g a v cl ty)
      = splitOnC '.' g ++ [a, v, canonicalFile a v cl ty] := by
    have hshape : canonicalPath g a v cl ty
        = g.map dotToSlash ++ '/' :: (a ++ '/' :: (v ++ '/' :: canonicalFile a v cl ty)) := by
      simp [canonicalPath, List.append_assoc]
    rw [hshape, splitOnC_append_cons, splitOnC_append_cons, splitOnC_append_cons,
      splitSlash_mapDot g hg3, splitOnC_of_not_mem '/' a ha3, splitOnC_of_not_mem '/' v hv3,
      splitOnC_of_not_mem '/' _ hfileslash]
    simp
  have hext : extname (canonicalFile a v cl ty) = '.' :: ty := by
    have hshape : canonicalFile a v cl ty
        = (a ++ '-' :: v ++ (if cl = [] then [] else '-' :: cl)) ++ '.' :: ty := by
      simp [canonicalFile, List.append_assoc]
    rw [hshape]
    exact extname_concat _ _ (by simp) htyd
  have hclass0 : jsSubstring (canonicalFile a v cl ty) (a.length + (v.length + 1))
      ((canonicalFile a v cl ty).length - (ty.length + 1))
      = (if cl = [] then [] else '-' :: cl) := by
    have hshape : canonicalFile a v cl ty
        = ((a ++ '-' :: v) ++ (if cl = [] then [] else '-' :: cl)) ++ '.' :: ty := by
      simp [canonicalFile, List.append_assoc]
    rw [hshape]
    have hA : a.length + (v.length + 1) = (a ++ '-' :: v).length := by
      simp only [List.length_append, List.length_cons]
    have hB : (((a ++ '-' :: v) ++ (if cl = [] then [] else '-' :: cl)) ++ '.' :: ty).length
        - (ty.length + 1)
        = ((a ++ '-' :: v) ++ (if cl = [] then [] else '-' :: cl)).length := by
      simp only [List.length_append, List.length_cons]
      omega
    rw [hA, hB]
    simp only [jsSubstring]
    have h1 : (a ++ '-' :: v).length ≤ ((a ++ '-' :: v)
        ++ (if cl = [] then [] else '-' :: cl)).length := by
      simp only [List.length_append]; omega
    have h2 : ((a ++ '-' :: v) ++ (if cl = [] then [] else '-' :: cl)).length
        ≤ (((a ++ '-' :: v) ++ (if cl = [] then [] else '-' :: cl)) ++ '.' :: ty).length := by
      simp only [List.length_append]; omega
    rw [Nat.min_eq_left (le_trans h1 h2), Nat.min_eq_left h2, Nat.max_eq_right h1,
      Nat.min_eq_left h1, List.take_left, List.drop_left]
  have hrev : (splitOnC '.' g ++ [a, v, canonicalFile a v cl ty]).reverse
      = canonicalFile a v cl ty :: v :: a :: (splitOnC '.' g).reverse := by
    simp
  by_cases hcl : cl = []
  · subst hcl
    simp [resolveFromPath, hsplit, hrev, joinWith_splitOnC, hext, hfile, hclass0]
  · simp [resolveFromPath, hsplit, hrev, joinWith_splitOnC, hext, hfile, hclass0, hcl]

/-- Concrete coordinate whose artifact id starts with its version string. -/
def cexCoord : Str := "g:1:1".toList

/-- C2 (amended): for a coordinate `g:a:v[:cl][@t]` whose components carry no
separator characters, whose explicit type is dot-free, nonempty and not `jar`,
whose version is not a snapshot, and whose canonical file name does not start
with the version string, `resolve` produces the canonical path and
`resolveFromPath` maps that path back to the original coordinate name. -/
theorem coordinate_path_round_trip (g a v cl : Str) (t : Option Str)
    (hg1 : ':' ∉ g) (ha1 : ':' ∉ a) (hv1 : ':' ∉ v) (hc1 : ':' ∉ cl)
    (hg2 : '@' ∉ g) (ha2 : '@' ∉ a) (hv2 : '@' ∉ v) (hc2 : '@' ∉ cl)
    (hg3 : '/' ∉ g) (ha3 : '/' ∉ a) (hv3 : '/' ∉ v) (hc3 : '/' ∉ cl)
    (hty : ∀ ty, t = some ty → '@' ∉ ty ∧ '/' ∉ ty ∧ '.' ∉ ty ∧ ty ≠ jarStr)
    (hsnap : snapshotSuffix.isSuffixOf v = false)
    (hfile : v.isPrefixOf (canonicalFile a v cl (t.getD jarStr)) = false) :
    ∃ info info2,
      LibraryInfo.resolve (mkCoordName g a v cl t) = some info ∧
      info.path = canonicalPath g a v cl (t.getD jarStr) ∧
      resolveFromPath info.path = some info2 ∧
      info2.name = mkCoordName g a v cl t := by
  rcases t with _ | ty
  · have h1 := resolve_mkCoordName g a v cl none hg1 ha1 hv1 hc1 hg2 ha2 hv2 hc2
      (fun ty h => by cases h)
    have h2 := resolveFromPath_canonical g a v cl jarStr hg3 ha3 hv3 hc3
      (by decide) (by decide) (by simpa using hfile)
    refine ⟨_, _, h1, rfl, h2, ?_⟩
    simp [mkCoordName]
  · obtain ⟨hty2, hty3, htyd, htyj⟩ := hty ty rfl
    have h1 := resolve_mkCoordName g a v cl (some ty) hg1 ha1 hv1 hc1 hg2 ha2 hv2 hc2
      (fun ty' h => by cases h; exact hty2)
    have h2 := resolveFromPath_canonical g a v cl ty hg3 ha3 hv3 hc3 hty3 htyd
      (by simpa using hfile)
    refine ⟨_, _, h1, rfl, h2, ?_⟩
    simp [mkCoordName, htyj]

theorem coordinate_path_round_trip_witness :
    ∃ info info2,
      LibraryInfo.resolve
          (mkCoordName ("com.example".toList) ("artifact".toList) ("1.2.3".toList)
            ("sources".toList) (some ("zip".toList))) = some info ∧
      info.path = canonicalPath ("com.example".toList) ("artifact".toList) ("1.2.3".toList)
        ("sources".toList) ((some ("zip".toList)).getD jarStr) ∧
      resolveFromPath info.path = some info2 ∧
      info2.name = mkCoordName ("com.example".toList) ("artifact".toList) ("1.2.3".toList)
        ("sources".toList) (some ("zip".toList)) :=
  coordinate_path_round_trip _ _ _ _ _
    (by decide) (by decide) (by decide) (by decide)
    (by decide) (by decide) (by decide) (by decide)
    (by decide) (by decide) (by decide) (by decide)
    (by intro ty h; cases h; exact ⟨by decide, by decide, by decide, by decide⟩)
    (by decide) (by decide)

/-- C2 counterexample: the non-snapshot coordinate `g:1:1` (artifact id `1`,
version `1`) does not round-trip: its canonical path parses back to
`g:1:1:1`, because the file name `1-1.jar` starts with the version string and
is therefore taken for a snapshot file. -/
theorem coordinate_round_trip_counterexample :
    ((LibraryInfo.resolve cexCoord).bind (fun i => resolveFromPath i.path)).map
        (fun i => i.name) = some ("g:1:1:1".toList)
    ∧ ¬(("g:1:1:1".toList : Str) = cexCoord) := by
  refine ⟨by decide, by decide⟩

/-- Reference rule applicability exactly as claim C3 states it (each of
`os.name`, `os.version`, `os.arch` constrains only when present, features must
match membership); written from the spec's words for comparison with the code. -/
def specOsNameClaim (platform : Platform) : Option Str → Bool
  | none => true
  | some n => decide (platform.name = n)

def specOsVersionClaim (rmatch : RMatch) (platform : Platform) : Option Str → Bool
  | none => true
  | some p => rmatch platform.version p

def specOsArchClaim (platform : Platform) : Option Str → Bool
  | none => true
  | some ar => decide (platform.arch = ar)

def specOsClaim (rmatch : RMatch) (platform : Platform) : Option OsRule → Bool
  | none => true
  | some o => specOsNameClaim platform o.name && specOsVersionClaim rmatch platform o.version
      && specOsArchClaim platform o.arch

def specFeats (features : List Str) : Option (List (Str × Bool)) → Bool
  | none => true
  | some freq => freq.all (fun kv => decide ((kv.1 ∈ features) ↔ kv.2 = true))

def specRuleAppliesClaim (rmatch : RMatch) (platform : Platform) (features : List Str)
    (rule : Rule) : Bool :=
  specOsClaim rmatch platform rule.os && specFeats features rule.features

/-- The claim's reference algorithm: empty list allows, otherwise the last
applicable rule's action wins, starting from disallow. -/
def specCheckAllowedClaim (rmatch : RMatch) (rules : List Rule) (platform : Platform)
    (features : List Str) : Bool :=
  if rules = [] then true
  else
    match (rules.filter (specRuleAppliesClaim rmatch platform features)).getLast? with
    | some r => decide (r.action = allowStr)
    | none => false

/-- Rule applicability as the code actually implements it (the amendment of
claim C3's reference): an `os` clause applies only when its `name` is present
and equal to the platform name and its `version`, when present and nonempty,
matches; `os.arch` is ignored. -/
def specOsName (platform : Platform) : Option Str → Bool
  | none => false
  | some n => decide (platform.name = n)

def specOsVersion (rmatch : RMatch) (platform : Platform) : Option Str → Bool
  | none => true
  | some p => decide (p = []) || rmatch platform.version p

def specOs (rmatch : RMatch) (platform : Platform) : Option OsRule → Bool
  | none => true
  | some o => specOsName platform o.name && specOsVersion rmatch platform o.version

def specRuleApplies (rmatch : RMatch) (platform : Platform) (features : List Str)
    (rule : Rule) : Bool :=
  specOs rmatch platform rule.os && specFeats features rule.features

/-- Last-applicable-rule-wins reference evaluator over the amended
applicability test. -/
def specCheckAllowed (rmatch : RMatch) (rules : List Rule) (platform : Platform)
    (features : List Str) : Bool :=
  if rules = [] then true
  else
    match (rules.filter (specRuleApplies rmatch platform features)).getLast? with
    | some r => decide (r.action = allowStr)
    | none => false

theorem contains_eq_decide_mem (l : List Str) (k : Str) :
    l.contains k = decide (k ∈ l) := by
  by_cases h : k ∈ l <;> simp [h, List.contains, List.elem_iff]

theorem featuresClauseApplies_eq (freq : List (Str × Bool)) (features : List Str) :
    featuresClauseApplies freq features
      = freq.all (fun kv => decide ((kv.1 ∈ features) ↔ kv.2 = true)) := by
  unfold featuresClauseApplies
  refine congrArg freq.all ?_
  funext kv
  rcases kv with ⟨k, b⟩
  cases b
  · by_cases h : k ∈ features <;> simp [contains_eq_decide_mem, h]
  · by_cases h : k ∈ features <;> simp [contains_eq_decide_mem, h]

theorem osClauseApplies_eq (rmatch : RMatch) (platform : Platform) (o : OsRule) :
    osClauseApplies rmatch platform o
      = (specOsName platform o.name && specOsVersion rmatch platform o.version) := by
  rcases o with ⟨n, ver, ar⟩
  simp only [osClauseApplies]
  have h1 : osNameMatches platform n = specOsName platform n := by
    rcases n with _ | n <;> rfl
  have h2 : osVersionMatches rmatch platform ver = specOsVersion rmatch platform ver := by
    rcases ver with _ | p
    · rfl
    · by_cases hp : p = [] <;> simp [osVersionMatches, specOsVersion, hp]
  rw [h1, h2]

theorem checkAllowedStep_eq (rmatch : RMatch) (platform : Platform) (features : List Str)
    (allow : Bool) (rule : Rule) :
    checkAllowedStep rmatch platform features allow rule
      = if specRuleApplies rmatch platform features rule
          then decide (rule.action = allowStr) else allow := by
  rcases rule with ⟨act, os, feats⟩
  simp only [checkAllowedStep, specRuleApplies]
  rcases os with _ | o
  · rcases feats with _ | freq
    · simp [osPartApplies, featsPartApply, specOs, specFeats]
    · simp only [osPartApplies, featsPartApply, specOs, specFeats,
        featuresClauseApplies_eq, if_true]
      exact if_congr (by rw [Bool.true_and]) rfl rfl
  · simp only [osPartApplies, specOs, osClauseApplies_eq]
    rcases feats with _ | freq
    · simp only [featsPartApply, specFeats]
      exact if_congr (by rw [Bool.and_true, ite_self]) rfl rfl
    · simp only [featsPartApply, specFeats, featuresClauseApplies_eq]
      refine if_congr ?_ rfl rfl
      by_cases hX : (specOsName platform o.name && specOsVersion rmatch platform o.version)
          = true
      · simp [hX]
      · simp only [Bool.not_eq_true] at hX
        simp [hX]

theorem foldl_if_filter {α : Type} (p : α → Bool) (f : α → Bool) (l : List α) (init : Bool) :
    l.foldl (fun acc x => if p x then f x else acc) init
      = (match (l.filter p).getLast? with | some x => f x | none => init) := by
  induction l using List.reverseRecOn generalizing init with
  | nil => rfl
  | append_singleton xs x ih =>
    rw [List.foldl_append, List.filter_append]
    simp only [List.foldl_cons, List.foldl_nil]
    rw [ih]
    by_cases hp : p x
    · simp [hp, List.getLast?_concat]
    · simp [hp]

/-- C3 (amended): `checkAllowed` coincides with the last-applicable-rule-wins
reference algorithm in which a present `os` clause requires a present, equal
`os.name` and a matching `os.version`, and in which `os.arch` is ignored. -/
theorem checkAllowed_eq_spec_reference (rmatch : RMatch) (rules : List Rule)
    (platform : Platform) (features : List Str) :
    Version.checkAllowed rmatch rules platform features
      = specCheckAllowed rmatch rules platform features := by
  unfold Version.checkAllowed specCheckAllowed
  by_cases h : rules = []
  · simp [h]
  · rw [if_neg (by simpa using h), if_neg h]
    have hfun : checkAllowedStep rmatch platform features
        = fun acc x => if specRuleApplies rmatch platform features x
            then decide (x.action = allowStr) else acc := by
      funext acc x
      exact checkAllowedStep_eq rmatch platform features acc x
    rw [hfun, foldl_if_filter]
    cases (rules.filter (specRuleApplies rmatch platform features)).getLast? <;> rfl

def rmatchNone : RMatch := fun _ _ => false

def platformLinuxX64 : Platform :=
  { name := "linux".toList, version := "5.0".toList, arch := "x64".toList }

def ruleArchX86 : Rule :=
  { action := allowStr,
    os := some { name := some ("linux".toList), arch := some ("x86".toList) } }

/-- C3 counterexample: a rule restricted to `os.arch = x86` is applied by the
code on an `x64` platform (the code never reads `os.arch`), while the claim's
reference algorithm rejects it. -/
theorem checkAllowed_claim_counterexample :
    Version.checkAllowed rmatchNone [ruleArchX86] platformLinuxX64 [] = true
    ∧ specCheckAllowedClaim rmatchNone [ruleArchX86] platformLinuxX64 [] = false := by
  refine ⟨by decide, by decide⟩

/-! The Minecraft folder layout (folder.js). -/

/-- A Minecraft installation folder; carries only its root path. -/
structure MinecraftFolder where
  root : Str
deriving DecidableEq, Repr

/-- The possible arguments of `MinecraftFolder.from`: a path string, an
existing `MinecraftFolder` instance, or any other object carrying a `root`. -/
inductive FolderLocation where
  | str (s : Str)
  | folder (f : MinecraftFolder)
  | obj (root : Str)
deriving DecidableEq, Repr

/-- `MinecraftFolder.from(location)` (folder.js lines 14-20). -/
def MinecraftFolder.«from» : FolderLocation → MinecraftFolder
  | .str s => ⟨s⟩
  | .folder f => f
  | .obj r => ⟨r⟩

/-- Node `path.join` restricted to plain nonempty segments. -/
def pathJoin (segs : List Str) : Str := joinWith '/' segs

def versionsSeg : Str := "versions".toList

def MinecraftFolder.getVersionRoot (f : MinecraftFolder) (version : Str) : Str :=
  pathJoin [f.root, versionsSeg, version]

def MinecraftFolder.getVersionJson (f : MinecraftFolder) (version : Str) : Str :=
  pathJoin [f.root, versionsSeg, version, version ++ ".json".toList]

/-- `getVersionJar(version, type)`: `type` absent or `'client'` yields the
bare jar, otherwise `{version}-{type}.jar`. -/
def MinecraftFolder.getVersionJar (f : MinecraftFolder) (version : Str)
    (ty : Option Str) : Str :=
  if ty = some ("client".toList) ∨ ty = none
  then pathJoin [f.root, versionsSeg, version, version ++ ".jar".toList]
  else pathJoin [f.root, versionsSeg, version,
    version ++ '-' :: (ty.getD []) ++ ".jar".toList]

def MinecraftFolder.getLibraryByPath (f : MinecraftFolder) (libraryPath : Str) : Str :=
  pathJoin [f.root, "libraries".toList, libraryPath]

def MinecraftFolder.getAssetsIndex (f : MinecraftFolder) (versionAssets : Str) : Str :=
  pathJoin [f.root, "assets".toList, "indexes".toList, versionAssets ++ ".json".toList]

def MinecraftFolder.getAsset (f : MinecraftFolder) (hash : Str) : Str :=
  pathJoin [f.root, "assets".toList, "objects".toList, hash.take 2, hash]

/-! Per-library resolution (`Version.resolveLibrary`, version.js lines 363-407). -/

/-- A download descriptor; `size = -1` means unknown, empty strings model
absent `sha1`/`url` fields. -/
structure Artifact where
  path : Str := []
  sha1 : Str := []
  size : Int := -1
  url : Str := []
deriving DecidableEq, Repr

structure LibDownloads where
  artifact : Option Artifact := none
  classifiers : Option (List (Str × Artifact)) := none
deriving DecidableEq, Repr

structure ExtractRule where
  exclude : Option (List Str) := none
deriving DecidableEq, Repr

/-- A raw library entry of a version manifest. -/
structure RawLibrary where
  name : Str
  rules : Option (List Rule) := none
  natives : Option (List (Str × Str)) := none
  downloads : Option LibDownloads := none
  url : Option Str := none
  checksums : Option (List Str) := none
  serverreq : Option Bool := none
  clientreq : Option Bool := none
  extract : Option ExtractRule := none
deriving DecidableEq, Repr

/-- The `ResolvedLibrary` class (version.js lines 74-101). -/
structure ResolvedLibrary where
  groupId : Str
  artifactId : Str
  version : Str
  isSnapshot : Bool
  type : Str
  classifier : Str
  path : Str
  name : Str
  download : Artifact
  isNative : Bool
  checksums : Option (List Str) := none
  serverreq : Option Bool := none
  clientreq : Option Bool := none
  extractExclude : Option (List Str) := none
deriving DecidableEq, Repr

/-- The `ResolvedLibrary` constructor: copies the coordinate fields out of
`info`. -/
def mkResolvedLibrary (name : Str) (info : LibraryInfo) (download : Artifact)
    (isNative : Bool) (checksums : Option (List Str)) (serverreq clientreq : Option Bool)
    (extractExclude : Option (List Str)) : ResolvedLibrary :=
  { groupId := info.groupId, artifactId := info.artifactId, version := info.version,
    isSnapshot := info.isSnapshot, type := info.type, classifier := info.classifier,
    path := info.path, name, download, isNative, checksums, serverreq, clientreq,
    extractExclude }

/-- JS object property lookup on an object modelled as an association list. -/
def jsGet {α : Type} (m : List (Str × α)) (k : Str) : Option α :=
  (m.find? (fun p => p.1 == k)).map (fun p => p.2)

def mavenHost : Str := "https://libraries.minecraft.net/".toList

def forgeHost : Str := "https://files.minecraftforge.net/maven/".toList

def forgeGroup : Str := "net.minecraftforge".toList

/-- The literal `'${arch}'` pattern of the native-classifier substitution. -/
def archPattern : Str := "$\x7barch\x7d".toList

def nativesPrefix : Str := "natives".toList

/-- The `'rules' in lib && !Version.checkAllowed(lib.rules, platform)` guard
(note: the features argument defaults to the empty set there). -/
def libRulesBlock (rmatch : RMatch) (platform : Platform) : Option (List Rule) → Bool
  | some rs => !(Version.checkAllowed rmatch rs platform [])
  | none => false

/-- Outcome of `Version.resolveLibrary`: `undefined` (dropped), a thrown
error (corrupted), or a resolved library. -/
inductive LibResolveOutcome where
  | dropped
  | corrupted
  | ok (lib : ResolvedLibrary)
deriving DecidableEq, Repr

/-- `Version.resolveLibrary(lib, platform)` (version.js lines 363-407),
modelled by the value its promise resolves to.  A crash on a malformed
coordinate and the `'Corrupted library'` throw are both `.corrupted`. -/
def Version.resolveLibrary (rmatch : RMatch) (lib : RawLibrary) (platform : Platform) :
    LibResolveOutcome :=
  if libRulesBlock rmatch platform lib.rules then .dropped
  else
    match lib.natives with
    | some ntv =>
      (match jsGet ntv platform.name with
       | none => .dropped
       | some tmpl =>
         if tmpl = [] then .dropped
         else
           let classifier := replaceFirst archPattern (platform.arch.drop 1) tmpl
           let nativeArtifact :=
             (lib.downloads.bind (fun d => d.classifiers)).bind
               (fun cs => jsGet cs classifier)
           match LibraryInfo.resolve (lib.name ++ ':' :: classifier) with
           | none => .corrupted
           | some info =>
             let art :=
               match nativeArtifact with
               | some art => art
               | none =>
                 { path := info.path, sha1 := [], size := -1, url := mavenHost ++ info.path }
             .ok (mkResolvedLibrary (lib.name ++ ':' :: classifier) info art true
               none none none (lib.extract.bind (fun e => e.exclude))))
    | none =>
      match LibraryInfo.resolve lib.name with
      | none => .corrupted
      | some info =>
        match lib.downloads with
        | some dls =>
          (match dls.artifact with
           | none => .corrupted
           | some art =>
             let art' :=
               if art.url = [] then
                 { art with
                   url := (if info.groupId = forgeGroup then forgeHost else mavenHost)
                     ++ art.path }
               else art
             if nativesPrefix.isPrefixOf info.classifier then
               .ok (mkResolvedLibrary info.name info art' true none none none none)
             else .ok (mkResolvedLibrary lib.name info art' false none none none none))
        | none =>
          let maven :=
            match lib.url with
            | some u => if u = [] then mavenHost else u
            | none => mavenHost
          let art : Artifact :=
            { size := -1,
              sha1 := (match lib.checksums with | some (c :: _) => c | _ => []),
              path := info.path, url := maven ++ info.path }
          .ok (mkResolvedLibrary lib.name info art false lib.checksums lib.serverreq
            lib.clientreq none)

/-- `Version.resolveLibraries` at the level of resolved values: dropped
entries are filtered out (a corrupted entry propagates as a throw). -/
def Version.resolveLibraries (rmatch : RMatch) (libs : List RawLibrary)
    (platform : Platform) : Except Unit (List ResolvedLibrary) :=
  if libs.any (fun lib => Version.resolveLibrary rmatch lib platform = .corrupted) then
    .error ()
  else
    .ok (libs.filterMap (fun lib =>
      match Version.resolveLibrary rmatch lib platform with
      | .ok l => some l
      | _ => none))

/-- C1 (amended): for a native library entry whose rules allow the platform
and whose `natives` table holds a nonempty entry for the platform name, the
classifier substitutes the first `${arch}` occurrence with `platform.arch`
minus its first character (so `x64` gives `64`, `x86` gives `86`, and `arm64`
gives `rm64`), the resolved library is native, and — when the entry carries no
`downloads` table — the synthesized download path is the canonical path for
that classifier. -/
theorem resolveLibrary_native_arch_substitution
    (rmatch : RMatch) (platform : Platform) (lib : RawLibrary)
    (g a v tmpl : Str) (ntv : List (Str × Str))
    (hrules : libRulesBlock rmatch platform lib.rules = false)
    (hnat : lib.natives = some ntv)
    (hlook : jsGet ntv platform.name = some tmpl)
    (htmpl : tmpl ≠ [])
    (hname : lib.name = mkCoordName g a v [] none)
    (hg1 : ':' ∉ g) (ha1 : ':' ∉ a) (hv1 : ':' ∉ v)
    (hg2 : '@' ∉ g) (ha2 : '@' ∉ a) (hv2 : '@' ∉ v)
    (hclne : replaceFirst archPattern (platform.arch.drop 1) tmpl ≠ [])
    (hcl1 : ':' ∉ replaceFirst archPattern (platform.arch.drop 1) tmpl)
    (hcl2 : '@' ∉ replaceFirst archPattern (platform.arch.drop 1) tmpl) :
    ∃ rl, Version.resolveLibrary rmatch lib platform = .ok rl ∧
      rl.isNative = true ∧
      rl.classifier = replaceFirst archPattern (platform.arch.drop 1) tmpl ∧
      (lib.downloads = none →
        rl.download.path
          = canonicalPath g a v (replaceFirst archPattern (platform.arch.drop 1) tmpl)
              jarStr) := by
  simp only [List.drop_one] at hclne hcl1 hcl2 ⊢
  have hfull : lib.name ++ ':' :: replaceFirst archPattern platform.arch.tail tmpl
      = mkCoordName g a v (replaceFirst archPattern platform.arch.tail tmpl) none := by
    simp [hname, mkCoordName, hclne, List.append_assoc]
  have hres := resolve_mkCoordName g a v (replaceFirst archPattern platform.arch.tail tmpl)
    none hg1 ha1 hv1 hcl1 hg2 ha2 hv2 hcl2 (fun ty h => by cases h)
  rcases hart : ((lib.downloads.bind (fun d => d.classifiers)).bind
      (fun cs => jsGet cs (replaceFirst archPattern platform.arch.tail tmpl))) with _ | art
  · refine ⟨mkResolvedLibrary
        (lib.name ++ ':' :: replaceFirst archPattern platform.arch.tail tmpl)
        { type := jarStr, groupId := g, artifactId := a, version := v,
          classifier := replaceFirst archPattern platform.arch.tail tmpl,
          name := mkCoordName g a v (replaceFirst archPattern platform.arch.tail tmpl) none,
          path := canonicalPath g a v (replaceFirst archPattern platform.arch.tail tmpl) jarStr,
          isSnapshot := snapshotSuffix.isSuffixOf v }
        { path := canonicalPath g a v (replaceFirst archPattern platform.arch.tail tmpl) jarStr,
          sha1 := [], size := -1,
          url := mavenHost
            ++ canonicalPath g a v (replaceFirst archPattern platform.arch.tail tmpl) jarStr }
        true none none none (lib.extract.bind (fun e => e.exclude)), ?_, rfl, rfl, ?_⟩
    · simp [Version.resolveLibrary, hrules, hnat, hlook, htmpl, List.drop_one, hart,
        hfull, hres]
    · intro hd
      rfl
  · refine ⟨mkResolvedLibrary
        (lib.name ++ ':' :: replaceFirst archPattern platform.arch.tail tmpl)
        { type := jarStr, groupId := g, artifactId := a, version := v,
          classifier := replaceFirst archPattern platform.arch.tail tmpl,
          name := mkCoordName g a v (replaceFirst archPattern platform.arch.tail tmpl) none,
          path := canonicalPath g a v (replaceFirst archPattern platform.arch.tail tmpl) jarStr,
          isSnapshot := snapshotSuffix.isSuffixOf v }
        art true none none none (lib.extract.bind (fun e => e.exclude)), ?_, rfl, rfl, ?_⟩
    · simp [Version.resolveLibrary, hrules, hnat, hlook, htmpl, List.drop_one, hart,
        hfull, hres]
    · intro hd
      rw [hd] at hart
      simp at hart

theorem resolveLibrary_native_arch_substitution_witness :
    ∃ rl,
      Version.resolveLibrary rmatchNone
          { name := "org.lwjgl:lwjgl:3.2.2".toList,
            natives := some [("linux".toList, "natives-linux-$\x7barch\x7d".toList)] }
          platformLinuxX64 = .ok rl ∧
      rl.isNative = true ∧
      rl.classifier = replaceFirst archPattern (platformLinuxX64.arch.drop 1)
        ("natives-linux-$\x7barch\x7d".toList) ∧
      (({ name := "org.lwjgl:lwjgl:3.2.2".toList,
          natives := some [("linux".toList, "natives-linux-$\x7barch\x7d".toList)] }
          : RawLibrary).downloads = none →
        rl.download.path
          = canonicalPath ("org.lwjgl".toList) ("lwjgl".toList) ("3.2.2".toList)
              (replaceFirst archPattern (platformLinuxX64.arch.drop 1)
                ("natives-linux-$\x7barch\x7d".toList)) jarStr) :=
  resolveLibrary_native_arch_substitution rmatchNone platformLinuxX64
    { name := "org.lwjgl:lwjgl:3.2.2".toList,
      natives := some [("linux".toList, "natives-linux-$\x7barch\x7d".toList)] }
    ("org.lwjgl".toList) ("lwjgl".toList) ("3.2.2".toList)
    ("natives-linux-$\x7barch\x7d".toList)
    [("linux".toList, "natives-linux-$\x7barch\x7d".toList)]
    (by decide) (by decide) (by decide) (by decide) (by decide)
    (by decide) (by decide) (by decide) (by decide) (by decide)
    (by decide) (by decide) (by decide) (by decide)

def armPlatform : Platform :=
  { name := "linux".toList, version := "6.0".toList, arch := "arm64".toList }

def lwjglArmLib : RawLibrary :=
  { name := "org.lwjgl:lwjgl:3.2.2".toList,
    natives := some [("linux".toList, "natives-linux-$\x7barch\x7d".toList)] }

/-- C1 counterexample: on an `arm64` platform the code produces the classifier
`natives-linux-rm64` (it always drops the first character of the arch), while
the claim predicts `natives-linux-arm64`. -/
theorem resolveLibrary_arm64_counterexample :
    (match Version.resolveLibrary rmatchNone lwjglArmLib armPlatform with
     | .ok l => some l.classifier
     | _ => none) = some ("natives-linux-rm64".toList)
    ∧ ¬(("natives-linux-rm64".toList : Str) = ("natives-linux-arm64".toList : Str)) :=
  ⟨by decide, by decide⟩

/-- C10: `MinecraftFolder.from` returns a `MinecraftFolder` unchanged, wraps a
string or a `root`-carrying object into a folder with that root, and is
therefore idempotent with the root preserved. -/
theorem minecraftFolder_from_idempotent :
    (∀ f : MinecraftFolder, MinecraftFolder.«from» (.folder f) = f)
    ∧ (∀ s : Str, (MinecraftFolder.«from» (.str s)).root = s)
    ∧ (∀ r : Str, (MinecraftFolder.«from» (.obj r)).root = r)
    ∧ (∀ x : FolderLocation,
        MinecraftFolder.«from» (.folder (MinecraftFolder.«from» x))
          = MinecraftFolder.«from» x) :=
  ⟨fun _ => rfl, fun _ => rfl, fun _ => rfl, fun _ => rfl⟩

/-! Version manifests, normalization and the inheritance merge
(`Version.normalizeVersionJson` and `Version.resolve`). -/

/-- The value of a conditional argument: a single string or a list. -/
inductive ArgValue where
  | one (s : Str)
  | many (l : List Str)
deriving DecidableEq, Repr

/-- An element of `arguments.jvm` / `arguments.game`: a plain string or a
rule-guarded conditional. -/
inductive Arg where
  | plain (s : Str)
  | cond (rules : Option (List Rule)) (value : ArgValue)
deriving DecidableEq, Repr

structure JavaVersion where
  majorVersion : Nat
  component : Str
deriving DecidableEq, Repr

def defaultJavaVersion : JavaVersion :=
  { majorVersion := 8, component := "jre-legacy".toList }

structure AssetIndex where
  id : Str := []
  sha1 : Str := []
  size : Int := 0
  totalSize : Int := 0
  url : Str := []
deriving DecidableEq, Repr

/-- The `logging` payload: carried through the resolver without being
inspected, so it is modelled as an opaque string. -/
abbrev Logging := Str

structure RawArguments where
  jvm : Option (List Arg) := none
  game : Option (List Arg) := none
deriving DecidableEq, Repr

/-- A version manifest as it comes out of `JSON.parse` — only the fields the
code consumes.  `minecraftVersionField` stands for the `_minecraftVersion`
field.  String fields whose absence the code tests with `||` are modelled as
possibly-empty strings. -/
structure ParsedManifest where
  id : Str := []
  inheritsFrom : Option Str := none
  mainClass : Str := []
  minecraftArguments : Option Str := none
  arguments : Option RawArguments := none
  libraries : List RawLibrary := []
  downloads : Option (List (Str × Artifact)) := none
  assetIndex : Option AssetIndex := none
  assets : Str := []
  releaseTime : Str := []
  time : Str := []
  type : Str := []
  logging : Option Logging := none
  javaVersion : Option JavaVersion := none
  minimumLauncherVersion : Nat := 0
  clientVersion : Str := []
  minecraftVersionField : Str := []
deriving DecidableEq, Repr

/-- The normalized manifest produced by `normalizeVersionJson`: the parsed
fields plus resolved libraries, the selected argument lists and the `replace`
flag marking a legacy manifest. -/
structure PartialJson where
  id : Str := []
  inheritsFrom : Option Str := none
  mainClass : Str := []
  argumentsGame : List Arg := []
  argumentsJvm : List Arg := []
  libraries : List ResolvedLibrary := []
  downloads : Option (List (Str × Artifact)) := none
  assetIndex : Option AssetIndex := none
  assets : Str := []
  releaseTime : Str := []
  time : Str := []
  type : Str := []
  logging : Option Logging := none
  javaVersion : Option JavaVersion := none
  minimumLauncherVersion : Nat := 0
  clientVersion : Str := []
  minecraftVersionField : Str := []
  minecraftDirectory : Str := []
  replace : Bool := false
deriving DecidableEq, Repr

/-- The filter predicate of `processArguments` inside `normalizeVersionJson`
(version.js lines 414-421): a conditional whose rules are all feature-free is
resolved now against the platform with no active features; conditionals with
a feature predicate, conditionals without rules and plain strings are kept.
(The `typeof r === 'string'` escape cannot occur in the typed rule model.) -/
def keepJvmArg (rmatch : RMatch) (platform : Platform) : Arg → Bool
  | .plain _ => true
  | .cond none _ => true
  | .cond (some rs) _ =>
    if rs.all (fun r => r.features.isNone) then
      Version.checkAllowed rmatch rs platform []
    else true

def processArguments (rmatch : RMatch) (platform : Platform) (ar : List Arg) : List Arg :=
  ar.filter (keepJvmArg rmatch platform)

/-- The fixed vanilla jvm template substituted for legacy manifests
(version.js lines 433-465). -/
def defaultJvmArgs : List Arg :=
  [ .cond (some [{ action := allowStr, os := some { name := some ("windows".toList) } }])
      (.one ("-XX:HeapDumpPath=MojangTricksIntelDriversForPerformance_javaw.exe_minecraft.exe.heapdump".toList)),
    .cond (some [{ action := allowStr,
                   os := some { name := some ("windows".toList),
                                version := some ("^10\\.".toList) } }])
      (.many ["-Dos.name=Windows 10".toList, "-Dos.version=10.0".toList]),
    .plain ("-Djava.library.path=$\x7bnatives_directory\x7d".toList),
    .plain ("-Dminecraft.launcher.brand=$\x7blauncher_name\x7d".toList),
    .plain ("-Dminecraft.launcher.version=$\x7blauncher_version\x7d".toList),
    .plain ("-cp".toList),
    .plain ("$\x7bclasspath\x7d".toList) ]

/-- `Version.normalizeVersionJson(versionString, root, platform)` (version.js
lines 413-482), on the already-`JSON.parse`d manifest.  The `libraries`
promise is modelled by its resolved value, so a corrupted library entry
surfaces as the error case. -/
def Version.normalizeVersionJson (rmatch : RMatch) (parsed : ParsedManifest) (root : Str)
    (platform : Platform) : Except Unit PartialJson :=
  match Version.resolveLibraries rmatch parsed.libraries platform with
  | .error e => .error e
  | .ok libraries =>
    let legacy := parsed.arguments.isNone
    let gameArgs : List Arg :=
      match parsed.arguments with
      | some args => args.game.getD []
      | none =>
        match parsed.minecraftArguments with
        | some ma => if ma = [] then [] else (splitOnC ' ' ma).map Arg.plain
        | none => []
    let jvmArgs : List Arg :=
      match parsed.arguments with
      | some args => args.jvm.getD []
      | none => defaultJvmArgs
    .ok { id := parsed.id, inheritsFrom := parsed.inheritsFrom,
          mainClass := parsed.mainClass,
          argumentsGame := gameArgs,
          argumentsJvm := processArguments rmatch platform jvmArgs,
          libraries, downloads := parsed.downloads, assetIndex := parsed.assetIndex,
          assets := parsed.assets, releaseTime := parsed.releaseTime,
          time := parsed.time, type := parsed.type, logging := parsed.logging,
          javaVersion := parsed.javaVersion,
          minimumLauncherVersion := parsed.minimumLauncherVersion,
          clientVersion := parsed.clientVersion,
          minecraftVersionField := parsed.minecraftVersionField,
          minecraftDirectory := root, replace := legacy }

/-- The `{game, jvm}` pair of flattened argument lists. -/
structure VersionArguments where
  game : List Arg := []
  jvm : List Arg := []
deriving DecidableEq, Repr

/-- The error kinds `Version.parse` can reject with.  `jsCrash` stands for a
raw JS throw without an `error` tag (the `'Corrupted library'` error);
`outOfFuel` is the embedding's marker for exhausted recursion fuel and is
unreachable with enough fuel. -/
inductive VErr where
  | missingVersionJson (version path : Str)
  | corruptedVersionJson (version : Str)
  | circularDependencies (version : Str) (chain : List Str)
  | badVersionJson (version missing : Str)
  | jsCrash
  | outOfFuel
deriving DecidableEq, Repr

/-- The output of `Version.resolve`.  Note `downloads` is
`Object.values(downloadsMap)`: a list of artifacts whose role keys are gone. -/
structure ResolvedVersion where
  id : Str
  assetIndex : Option AssetIndex
  assets : Str
  minecraftVersion : Str
  inheritances : List Str
  arguments : VersionArguments
  downloads : List Artifact
  libraries : List ResolvedLibrary
  mainClass : Str
  minimumLauncherVersion : Nat
  releaseTime : Str
  time : Str
  type : Str
  logging : Option Logging
  pathChain : List Str
  minecraftDirectory : Str
  javaVersion : JavaVersion
deriving DecidableEq, Repr

/-- JS object key assignment on an insertion-ordered association list:
overwrites the key in place or appends it. -/
def upsert {α : Type} (m : List (Str × α)) (k : Str) (v : α) : List (Str × α) :=
  if m.any (fun p => p.1 == k) then
    m.map (fun p => if p.1 == k then (k, v) else p)
  else m ++ [(k, v)]

/-- The dedup key `"{groupId}:{artifactId}"`, with `"-{classifier};"` appended
for entries with a classifier (version.js lines 198-201). -/
def libOrgName (lib : ResolvedLibrary) : Str :=
  lib.groupId ++ ':' :: lib.artifactId
    ++ (if lib.classifier = [] then [] else '-' :: (lib.classifier ++ [';']))

/-- JS `a || b` for strings coming from a manifest field. -/
def strOr (a b : Str) : Str := if a = [] then b else a

/-- The running accumulators of the do/while merge loop of `Version.resolve`. -/
structure MergeAcc where
  minimumLauncherVersion : Nat := 0
  location : Str := []
  gameArgs : List Arg := []
  jvmArgs : List Arg := []
  releaseTime : Str := []
  time : Str := []
  logging : Option Logging := none
  assets : Str := []
  type : Str := []
  mainClass : Str := []
  assetIndex : Option AssetIndex := none
  javaVersion : JavaVersion := defaultJavaVersion
  librariesMap : List (Str × ResolvedLibrary) := []
  nativesMap : List (Str × ResolvedLibrary) := []
  downloadsMap : List (Str × Artifact) := []
deriving DecidableEq, Repr

/-- One iteration of the merge loop (version.js lines 174-214), processing
one popped manifest. -/
def mergeStep (st : MergeAcc) (json : PartialJson) : MergeAcc :=
  let st := { st with
    minimumLauncherVersion := max json.minimumLauncherVersion st.minimumLauncherVersion,
    location := json.minecraftDirectory }
  let st :=
    if ¬json.replace then
      { st with gameArgs := st.gameArgs ++ json.argumentsGame,
                jvmArgs := st.jvmArgs ++ json.argumentsJvm }
    else
      { st with gameArgs := json.argumentsGame, jvmArgs := json.argumentsJvm }
  let st := { st with
    releaseTime := strOr json.releaseTime st.releaseTime,
    time := strOr json.time st.time,
    logging := json.logging.or st.logging,
    assets := strOr json.assets st.assets,
    type := strOr json.type st.type,
    mainClass := strOr json.mainClass st.mainClass,
    assetIndex := json.assetIndex.or st.assetIndex,
    javaVersion := json.javaVersion.getD st.javaVersion }
  let maps := json.libraries.foldl
    (fun (maps : List (Str × ResolvedLibrary) × List (Str × ResolvedLibrary)) lib =>
      if lib.isNative then (maps.1, upsert maps.2 (libOrgName lib) lib)
      else (upsert maps.1 (libOrgName lib) lib, maps.2))
    (st.librariesMap, st.nativesMap)
  let downloadsMap :=
    match json.downloads with
    | none => st.downloadsMap
    | some dls => dls.foldl (fun m kv => upsert m kv.1 kv.2) st.downloadsMap
  { st with librariesMap := maps.1, nativesMap := maps.2, downloadsMap }

/-- `Version.resolve(minecraftPath, hierarchy)` (version.js lines 147-245).
The do/while pop loop processes the hierarchy from its last element (the root
of the chain) towards its first (the requested child); an empty hierarchy
would be a JS crash. -/
def Version.resolve (minecraftPath : FolderLocation) (hierarchy : List PartialJson) :
    Except VErr ResolvedVersion :=
  match hierarchy with
  | [] => .error .jsCrash
  | first :: rest =>
    let folder := MinecraftFolder.«from» minecraftPath
    let rootVersion := rest.getLastD first
    let chains := (first :: rest).map (fun j => folder.getVersionRoot j.id)
    let inheritances := (first :: rest).map (fun j => j.id)
    let st := ((first :: rest).reverse).foldl mergeStep
      { assetIndex := rootVersion.assetIndex }
    if st.mainClass = [] then .error (.badVersionJson first.id ("MainClass".toList))
    else .ok {
      id := first.id,
      assetIndex := st.assetIndex,
      assets := st.assets,
      minecraftVersion := strOr rootVersion.clientVersion
        (strOr rootVersion.minecraftVersionField rootVersion.id),
      inheritances,
      arguments := { game := st.gameArgs, jvm := st.jvmArgs },
      downloads := st.downloadsMap.map (fun p => p.2),
      libraries := st.librariesMap.map (fun p => p.2) ++ st.nativesMap.map (fun p => p.2),
      mainClass := st.mainClass,
      minimumLauncherVersion := st.minimumLauncherVersion,
      releaseTime := st.releaseTime, time := st.time, type := st.type,
      logging := st.logging, pathChain := chains,
      minecraftDirectory := st.location, javaVersion := st.javaVersion }

/-! The dependency walk (`Version.resolveDependency`, version.js lines
312-361). -/

/-- Contents of a `{id}.json` file in the modelled versions directory. -/
inductive VFile where
  | corrupt
  | valid (parsed : ParsedManifest)
deriving DecidableEq, Repr

/-- The file system of version manifests: id to file content. -/
abbrev ManifestFS := List (Str × VFile)

/-- The recursive `walk` closure, with explicit stack and recursion fuel.
`version` is the originally requested id, used in the circular error. -/
def walkDeps (rmatch : RMatch) (folder : MinecraftFolder) (fs : ManifestFS)
    (platform : Platform) (version : Str) :
    Nat → Str → List PartialJson → Except VErr (List PartialJson)
  | 0, _, _ => .error .outOfFuel
  | fuel + 1, versionName, stack =>
    match jsGet fs versionName with
    | none => .error (.missingVersionJson versionName (folder.getVersionJson versionName))
    | some .corrupt => .error (.corruptedVersionJson versionName)
    | some (.valid parsed) =>
      match Version.normalizeVersionJson rmatch parsed folder.root platform with
      | .error _ => .error .jsCrash
      | .ok versionJson =>
        let stack' := stack ++ [versionJson]
        match versionJson.inheritsFrom with
        | none => .ok stack'
        | some nextVersion =>
          if stack'.any (fun v => v.id == nextVersion) then
            .error (.circularDependencies version
              (stack'.map (fun v => v.id) ++ [nextVersion]))
          else walkDeps rmatch folder fs platform version fuel nextVersion stack'

def Version.resolveDependency (rmatch : RMatch) (path : FolderLocation) (fs : ManifestFS)
    (platform : Platform) (version : Str) (fuel : Nat) : Except VErr (List PartialJson) :=
  walkDeps rmatch (MinecraftFolder.«from» path) fs platform version fuel version []

/-! The diagnoser (src/packages/core/files/diagnose.js). -/

structure AssetObj where
  hash : Str
  size : Int
deriving DecidableEq, Repr

/-- Oracles for the file system state the diagnoser probes: existence,
streaming sha1, `stat` size (`-1` when missing, matching the `.catch`), and
the parsed asset index content (`none` when reading or parsing it rejects). -/
structure DiagFS where
  fileExists : Str → Bool
  fileSha1 : Str → Str
  statSize : Str → Int
  assetIndexObjects : Str → Option (List (Str × AssetObj))

structure Issue where
  type : Str
  role : Str
  file : Str
  expectedChecksum : Str
  receivedChecksum : Str
  hint : Str
  version : Option Str := none
  library : Option ResolvedLibrary := none
  asset : Option (Str × AssetObj) := none
deriving DecidableEq, Repr

structure Report where
  minecraftLocation : MinecraftFolder
  version : Str
  issues : List Issue
deriving DecidableEq, Repr

structure DiagOptions where
  strict : Bool := false
deriving DecidableEq, Repr

def missingStr : Str := "missing".toList

def corruptedStr : Str := "corrupted".toList

def versionJsonRole : Str := "versionJson".toList

def reinstallHint : Str := "Re-install the minecraft!".toList

def jarHint : Str :=
  "Problem on Minecraft jar! Please consider to use Installer.instalVersion to fix.".toList

def assetIndexHint : Str :=
  "Problem on assets index file! Please consider to use Installer.installAssets to fix.".toList

def libraryHint : Str :=
  "Problem on library! Please consider to use Installer.installLibraries to fix.".toList

def assetHint : Str :=
  "Problem on asset! Please consider to use Installer.installAssets to fix.".toList

/-- `diagnoseFile` (diagnose.js lines 11-42), without a cancellation signal. -/
def diagnoseFile (fs : DiagFS) (file expectedChecksum role hint : Str) : Option Issue :=
  let fileExisted := fs.fileExists file
  let received :=
    if fileExisted ∧ expectedChecksum ≠ [] then fs.fileSha1 file else []
  let issue : Bool :=
    if !fileExisted then true
    else if expectedChecksum ≠ [] then decide (fs.fileSha1 file ≠ expectedChecksum)
    else false
  let ty := if fileExisted then corruptedStr else missingStr
  if issue then
    some { type := ty, role, file, expectedChecksum, receivedChecksum := received, hint }
  else none

/-- `diagnoseJar` (diagnose.js lines 137-145).  Because `Version.resolve`
emits `downloads` as an array, the JS access `downloads.client?.sha1` is
`undefined` and the expected checksum is always empty. -/
def diagnoseJar (fs : DiagFS) (minecraft : MinecraftFolder) (rv : ResolvedVersion) :
    Option Issue :=
  (diagnoseFile fs (minecraft.getVersionJar rv.minecraftVersion none) []
      ("minecraftJar".toList) jarHint).map
    (fun i => { i with version := some rv.minecraftVersion })

/-- `diagnoseAssetIndex` (diagnose.js lines 126-135). -/
def diagnoseAssetIndex (fs : DiagFS) (minecraft : MinecraftFolder)
    (rv : ResolvedVersion) : Option Issue :=
  (diagnoseFile fs (minecraft.getAssetsIndex rv.assets)
      ((rv.assetIndex.map (fun ai => ai.sha1)).getD []) ("assetIndex".toList)
      assetIndexHint).map
    (fun i => { i with version := some rv.minecraftVersion })

/-- `diagnoseLibraries` (diagnose.js lines 102-124); a library without a
download path makes the whole fan-out reject with a `TypeError`. -/
def diagnoseLibraries (fs : DiagFS) (minecraft : MinecraftFolder)
    (rv : ResolvedVersion) (opts : DiagOptions) : Except Unit (List Issue) :=
  if rv.libraries.any (fun lib => lib.download.path == []) then .error ()
  else
    .ok (rv.libraries.filterMap (fun lib =>
      let libPath := minecraft.getLibraryByPath lib.download.path
      if !opts.strict then
        (diagnoseFile fs libPath lib.download.sha1 ("library".toList) libraryHint).map
          (fun i => { i with library := some lib })
      else if lib.download.size ≠ -1 ∧ fs.statSize libPath ≠ lib.download.size then
        (diagnoseFile fs libPath lib.download.sha1 ("library".toList) libraryHint).map
          (fun i => { i with library := some lib })
      else none))

/-- `diagnoseAssets` (diagnose.js lines 147-172). -/
def diagnoseAssets (fs : DiagFS) (minecraft : MinecraftFolder)
    (objs : List (Str × AssetObj)) (opts : DiagOptions) : List Issue :=
  objs.filterMap (fun kv =>
    let assetPath := minecraft.getAsset kv.2.hash
    if opts.strict then
      (diagnoseFile fs assetPath kv.2.hash ("asset".toList) assetHint).map
        (fun i => { i with asset := some kv })
    else if fs.statSize assetPath ≠ kv.2.size then
      (diagnoseFile fs assetPath kv.2.hash ("asset".toList) assetHint).map
        (fun i => { i with asset := some kv })
    else none)

/-- The single issue recorded when `Version.parse` rejects (diagnose.js lines
56-67): type is `corrupted` for a corrupted version json, `missing` for every
other tagged error kind. -/
def versionJsonIssue (minecraft : MinecraftFolder) (ty v : Str) : Issue :=
  { type := ty, role := versionJsonRole, file := minecraft.getVersionJson v,
    expectedChecksum := [], receivedChecksum := [], hint := reinstallHint }

/-- `diagnose(version, minecraftLocation)` (diagnose.js lines 45-100), with
the outcome of `Version.parse` supplied as a parameter and the file system as
oracles.  A rejection of the underlying promise chain is `.error ()`; in
particular an untagged JS throw reaches `minecraft.getVersionJson(undefined)`
whose `path.join` throws. -/
def diagnose (version : Str) (minecraftLocation : FolderLocation)
    (parseResult : Except VErr ResolvedVersion) (fs : DiagFS) (opts : DiagOptions) :
    Except Unit Report :=
  let minecraft := MinecraftFolder.«from» minecraftLocation
  match parseResult with
  | .error (.corruptedVersionJson v) =>
    .ok { minecraftLocation := minecraft, version,
          issues := [versionJsonIssue minecraft corruptedStr v] }
  | .error (.missingVersionJson v _) =>
    .ok { minecraftLocation := minecraft, version,
          issues := [versionJsonIssue minecraft missingStr v] }
  | .error (.badVersionJson v _) =>
    .ok { minecraftLocation := minecraft, version,
          issues := [versionJsonIssue minecraft missingStr v] }
  | .error (.circularDependencies v _) =>
    .ok { minecraftLocation := minecraft, version,
          issues := [versionJsonIssue minecraft missingStr v] }
  | .error .jsCrash => .error ()
  | .error .outOfFuel => .error ()
  | .ok rv =>
    let jarIssue := diagnoseJar fs minecraft rv
    let aiIssue := diagnoseAssetIndex fs minecraft rv
    match diagnoseLibraries fs minecraft rv opts with
    | .error e => .error e
    | .ok libIssues =>
      let base := jarIssue.toList ++ aiIssue.toList ++ libIssues
      match aiIssue with
      | some _ => .ok { minecraftLocation := minecraft, version, issues := base }
      | none =>
        match fs.assetIndexObjects (minecraft.getAssetsIndex rv.assets) with
        | none => .error ()
        | some objs =>
          .ok { minecraftLocation := minecraft, version,
                issues := base ++ diagnoseAssets fs minecraft objs opts }

/-- C9: whenever `Version.parse` fails with a tagged error other than
`CorruptedVersionJson` — `MissingVersionJson`, `BadVersionJson` or
`CircularDependenciesError` — `diagnose` returns a report whose only issue
has type `missing` and role `versionJson`, touching no file-system state;
only `CorruptedVersionJson` yields type `corrupted` instead. -/
theorem diagnose_parse_error_single_issue :
    (∀ (version v p : Str) (loc : FolderLocation) (fs : DiagFS) (opts : DiagOptions),
      diagnose version loc (.error (.missingVersionJson v p)) fs opts
        = .ok { minecraftLocation := MinecraftFolder.«from» loc, version,
                issues := [versionJsonIssue (MinecraftFolder.«from» loc) missingStr v] })
    ∧ (∀ (version v m : Str) (loc : FolderLocation) (fs : DiagFS) (opts : DiagOptions),
      diagnose version loc (.error (.badVersionJson v m)) fs opts
        = .ok { minecraftLocation := MinecraftFolder.«from» loc, version,
                issues := [versionJsonIssue (MinecraftFolder.«from» loc) missingStr v] })
    ∧ (∀ (version v : Str) (chain : List Str) (loc : FolderLocation) (fs : DiagFS)
          (opts : DiagOptions),
      diagnose version loc (.error (.circularDependencies v chain)) fs opts
        = .ok { minecraftLocation := MinecraftFolder.«from» loc, version,
                issues := [versionJsonIssue (MinecraftFolder.«from» loc) missingStr v] })
    ∧ (∀ (version v : Str) (loc : FolderLocation) (fs : DiagFS) (opts : DiagOptions),
      diagnose version loc (.error (.corruptedVersionJson v)) fs opts
        = .ok { minecraftLocation := MinecraftFolder.«from» loc, version,
                issues := [versionJsonIssue (MinecraftFolder.«from» loc) corruptedStr v] }) :=
  ⟨fun _ _ _ _ _ _ => rfl, fun _ _ _ _ _ _ => rfl, fun _ _ _ _ _ _ => rfl,
   fun _ _ _ _ _ => rfl⟩

def clientArtifactA : Artifact :=
  { path := "client1.jar".toList, sha1 := "aa11".toList, size := 10, url := [] }

def serverArtifactA : Artifact :=
  { path := "server1.jar".toList, sha1 := "bb22".toList, size := 20, url := [] }

def manifestClientServer : PartialJson :=
  { id := "1.20.1".toList, mainClass := "net.minecraft.client.main.Main".toList,
    downloads := some [("client".toList, clientArtifactA), ("server".toList, serverArtifactA)] }

def manifestSwappedRoles : PartialJson :=
  { manifestClientServer with
    downloads := some [("server".toList, clientArtifactA), ("client".toList, serverArtifactA)] }

/-- C6: `Version.resolve` emits `downloads` as `Object.values(downloadsMap)`,
a bare list of artifacts: two manifests that assign the same artifacts to
different roles resolve to identical versions, so the role-to-artifact map the
diagnoser dereferences (`downloads.client`) does not exist in the output. -/
theorem resolve_downloads_roles_dropped :
    Version.resolve (.str ("root".toList)) [manifestClientServer]
      = Version.resolve (.str ("root".toList)) [manifestSwappedRoles]
    ∧ (Version.resolve (.str ("root".toList)) [manifestClientServer]).map
        (fun r => r.downloads) = .ok [clientArtifactA, serverArtifactA]
    ∧ manifestClientServer ≠ manifestSwappedRoles :=
  ⟨rfl, rfl, by decide⟩

/-- C4: for a two-link chain of child `C` over parent `P` (the hierarchy list
`[C, P]`), the merged arguments are `P ++ C` whenever the child is not legacy
— in particular when neither is — and `C` alone when the child is legacy
(replace semantics); the resolved `mainClass` is the one defined last in pop
order, i.e. the child's unless empty, else the parent's. -/
theorem resolve_two_link_inheritance (loc : FolderLocation) (P C : PartialJson)
    (hmc : ¬(C.mainClass = [] ∧ P.mainClass = [])) :
    (Version.resolve loc [C, P]).map (fun r => r.arguments.game)
        = .ok (if C.replace then C.argumentsGame else P.argumentsGame ++ C.argumentsGame)
    ∧ (Version.resolve loc [C, P]).map (fun r => r.arguments.jvm)
        = .ok (if C.replace then C.argumentsJvm else P.argumentsJvm ++ C.argumentsJvm)
    ∧ (Version.resolve loc [C, P]).map (fun r => r.mainClass)
        = .ok (if C.mainClass = [] then P.mainClass else C.mainClass) := by
  by_cases hCm : C.mainClass = []
  · have hPm : ¬(P.mainClass = []) := fun h => hmc ⟨hCm, h⟩
    by_cases hCr : C.replace <;>
      refine ⟨?_, ?_, ?_⟩ <;>
      simp [Version.resolve, mergeStep, strOr, hCm, hPm, hCr, Except.map]
  · by_cases hCr : C.replace <;>
      refine ⟨?_, ?_, ?_⟩ <;>
      simp [Version.resolve, mergeStep, strOr, hCm, hCr, Except.map]

def parentManifestW : PartialJson :=
  { id := "1.20.1".toList, mainClass := "net.minecraft.client.main.Main".toList,
    argumentsGame := [.plain ("--gameDir".toList)],
    argumentsJvm := [.plain ("-Xss1M".toList)] }

def childManifestW : PartialJson :=
  { id := "1.20.1-forge".toList, mainClass := [],
    argumentsGame := [.plain ("--fml".toList)],
    argumentsJvm := [.plain ("-Dforge".toList)] }

theorem resolve_two_link_inheritance_witness :
    (Version.resolve (.str ("root".toList)) [childManifestW, parentManifestW]).map
        (fun r => r.arguments.game)
      = .ok (if childManifestW.replace then childManifestW.argumentsGame
             else parentManifestW.argumentsGame ++ childManifestW.argumentsGame)
    ∧ (Version.resolve (.str ("root".toList)) [childManifestW, parentManifestW]).map
        (fun r => r.arguments.jvm)
      = .ok (if childManifestW.replace then childManifestW.argumentsJvm
             else parentManifestW.argumentsJvm ++ childManifestW.argumentsJvm)
    ∧ (Version.resolve (.str ("root".toList)) [childManifestW, parentManifestW]).map
        (fun r => r.mainClass)
      = .ok (if childManifestW.mainClass = [] then parentManifestW.mainClass
             else childManifestW.mainClass) :=
  resolve_two_link_inheritance (.str ("root".toList)) parentManifestW childManifestW
    (by decide)

/-- C7: when the dependency walk meets an `inheritsFrom` that refers back to
an id already on the stack — here a chain whose manifests form `A` inherits
`B` inherits `A` — resolution fails with `CircularDependenciesError` carrying
the chain `[A, B, A]`. -/
theorem resolveDependency_cycle_detection
    (rmatch : RMatch) (platform : Platform) (loc : FolderLocation) (fs : ManifestFS)
    (A B : Str) (mA mB : ParsedManifest) (pA pB : PartialJson) (fuel : Nat)
    (hAB : ¬(A = B))
    (hfsA : jsGet fs A = some (.valid mA))
    (hfsB : jsGet fs B = some (.valid mB))
    (hnA : Version.normalizeVersionJson rmatch mA (MinecraftFolder.«from» loc).root
        platform = .ok pA)
    (hnB : Version.normalizeVersionJson rmatch mB (MinecraftFolder.«from» loc).root
        platform = .ok pB)
    (hidA : pA.id = A) (hinhA : pA.inheritsFrom = some B)
    (hidB : pB.id = B) (hinhB : pB.inheritsFrom = some A) :
    Version.resolveDependency rmatch loc fs platform A (fuel + 2)
      = .error (.circularDependencies A [A, B, A]) := by
  simp [Version.resolveDependency, walkDeps, hfsA, hfsB, hnA, hnB, hinhA, hinhB,
    hidA, hidB, hAB]

def circManifestA : ParsedManifest :=
  { id := "A".toList, inheritsFrom := some ("B".toList),
    mainClass := "MainA".toList,
    arguments := some { jvm := some [], game := some [] } }

def circManifestB : ParsedManifest :=
  { id := "B".toList, inheritsFrom := some ("A".toList),
    mainClass := "MainB".toList,
    arguments := some { jvm := some [], game := some [] } }

def circPartialA : PartialJson :=
  { id := "A".toList, inheritsFrom := some ("B".toList), mainClass := "MainA".toList,
    minecraftDirectory := "root".toList }

def circPartialB : PartialJson :=
  { id := "B".toList, inheritsFrom := some ("A".toList), mainClass := "MainB".toList,
    minecraftDirectory := "root".toList }

theorem resolveDependency_cycle_detection_witness :
    Version.resolveDependency rmatchNone (.str ("root".toList))
        [("A".toList, .valid circManifestA), ("B".toList, .valid circManifestB)]
        platformLinuxX64 ("A".toList) (0 + 2)
      = .error (.circularDependencies ("A".toList)
          ["A".toList, "B".toList, "A".toList]) :=
  resolveDependency_cycle_detection rmatchNone platformLinuxX64 (.str ("root".toList))
    [("A".toList, .valid circManifestA), ("B".toList, .valid circManifestB)]
    ("A".toList) ("B".toList) circManifestA circManifestB circPartialA circPartialB 0
    (by decide) (by decide) (by decide) (by decide) (by decide)
    (by decide) (by decide) (by decide) (by decide)

/-- Which jvm entries survive normalization, as the amended claim C5 words it:
plain strings always, conditionals carrying a feature predicate always (they
are deferred to launch time), conditionals without rules always, and OS-only
conditionals exactly when rule evaluation allows them with no active
features. -/
def specKeepJvm (rmatch : RMatch) (platform : Platform) : Arg → Bool
  | .plain _ => true
  | .cond none _ => true
  | .cond (some rs) _ =>
    if rs.any (fun r => r.features.isSome) then true
    else Version.checkAllowed rmatch rs platform []

theorem keepJvmArg_eq_spec (rmatch : RMatch) (platform : Platform) (a : Arg) :
    keepJvmArg rmatch platform a = specKeepJvm rmatch platform a := by
  rcases a with s | ⟨rs, v⟩
  · rfl
  · rcases rs with _ | rs
    · rfl
    · simp only [keepJvmArg, specKeepJvm]
      have hiff : (rs.any (fun r => r.features.isSome) = true)
          ↔ ¬(rs.all (fun r => r.features.isNone) = true) := by
        simp [List.any_eq_true, List.all_eq_true, Option.isSome_iff_ne_none,
          Option.isNone_iff_eq_none]
      by_cases h : rs.all (fun r => r.features.isNone) = true
      · rw [if_pos h, if_neg (fun ha => (hiff.mp ha) h)]
      · rw [if_neg h, if_pos (hiff.mpr h)]

/-- The jvm list a manifest submits to `processArguments`: the modern
`arguments.jvm` (or `[]`), or the fixed legacy template. -/
def rawJvmArgs (parsed : ParsedManifest) : List Arg :=
  match parsed.arguments with
  | some args => args.jvm.getD []
  | none => defaultJvmArgs

/-- C5 (amended): normalization filters the manifest's jvm argument list by
keeping every plain string, keeping (not dropping) every conditional whose
rules contain a feature predicate, and keeping an OS-only conditional exactly
when rule evaluation allows it on the current platform. -/
theorem normalize_jvm_argument_filtering (rmatch : RMatch) (platform : Platform)
    (parsed : ParsedManifest) (root : Str) (pj : PartialJson)
    (hok : Version.normalizeVersionJson rmatch parsed root platform = .ok pj) :
    pj.argumentsJvm = (rawJvmArgs parsed).filter (specKeepJvm rmatch platform) := by
  unfold Version.normalizeVersionJson at hok
  rcases hlib : Version.resolveLibraries rmatch parsed.libraries platform with e | libs
  · rw [hlib] at hok
    cases hok
  · rw [hlib] at hok
    have hfil : processArguments rmatch platform
        = fun ar => List.filter (specKeepJvm rmatch platform) ar := by
      funext ar
      unfold processArguments
      exact List.filter_congr (fun a _ => keepJvmArg_eq_spec rmatch platform a)
    injection hok with hpj
    subst hpj
    simp only [rawJvmArgs]
    rcases parsed.arguments with _ | args
    · simp [hfil]
    · simp [hfil]

def parsedModernW : ParsedManifest :=
  { id := "t".toList, mainClass := "Main".toList,
    arguments := some { jvm := some [.plain ("-Xss1M".toList)], game := some [] } }

def normalizedModernW : PartialJson :=
  { id := "t".toList, mainClass := "Main".toList,
    argumentsGame := [], argumentsJvm := [.plain ("-Xss1M".toList)],
    minecraftDirectory := "root".toList, replace := false }

theorem normalize_jvm_argument_filtering_witness :
    normalizedModernW.argumentsJvm
      = (rawJvmArgs parsedModernW).filter (specKeepJvm rmatchNone platformLinuxX64) :=
  normalize_jvm_argument_filtering rmatchNone platformLinuxX64 parsedModernW
    ("root".toList) normalizedModernW (by decide)

def featureRuleC5 : Rule :=
  { action := allowStr, features := some [("has_custom_resolution".toList, true)] }

def featureCondArg : Arg := .cond (some [featureRuleC5]) (.one ("--width".toList))

def parsedWithFeatureJvm : ParsedManifest :=
  { id := "t".toList, mainClass := "Main".toList,
    arguments := some { jvm := some [featureCondArg], game := some [] } }

/-- C5 counterexample: a jvm conditional whose single rule carries a feature
predicate is kept by normalization (to be resolved at launch), whereas the
claim says it is dropped. -/
theorem normalize_jvm_feature_rule_counterexample :
    (Version.normalizeVersionJson rmatchNone parsedWithFeatureJvm ("root".toList)
        platformLinuxX64).map (fun pj => pj.argumentsJvm)
      = .ok [featureCondArg]
    ∧ ¬(([featureCondArg] : List Arg) = []) :=
  ⟨by decide, by decide⟩

/-! Placeholder interpolation (`format` in the launch module, part_002 lines
67-72): `template.replace(/\$\{(.*?)}/g, (key) => args[name] || key)`. -/

/-- Scans for the first `}` before a newline (the lazy `.*?` of the pattern
cannot cross a line break): the name before it and the rest after it. -/
def splitAtBrace : Str → Option (Str × Str)
  | [] => none
  | c :: rest =>
    if c = '\x7d' then some ([], rest)
    else if c = '\n' then none
    else
      match splitAtBrace rest with
      | some (n, r) => some (c :: n, r)
      | none => none

/-- The replacement callback: `args[name] || key` — an unknown key or a falsy
(empty) value leaves the whole `${name}` match in place. -/
def phReplacement (lookup : Str → Option Str) (n : Str) : Str :=
  match lookup n with
  | some v => if v = [] then '$' :: '\x7b' :: (n ++ ['\x7d']) else v
  | none => '$' :: '\x7b' :: (n ++ ['\x7d'])

/-- The global-regex replace scan, with structural fuel (at least one
character is consumed per unit; `format` supplies the template length). -/
def formatGoF (lookup : Str → Option Str) : Nat → Str → Str
  | 0, s => s
  | _ + 1, [] => []
  | f + 1, c :: rest =>
    if c = '$' ∧ rest.head? = some '\x7b' then
      match splitAtBrace rest.tail with
      | some (n, r) => phReplacement lookup n ++ formatGoF lookup f r
      | none => c :: formatGoF lookup f rest
    else c :: formatGoF lookup f rest

/-- `format(template, args)` (part_002 lines 67-72). -/
def format (lookup : Str → Option Str) (template : Str) : Str :=
  formatGoF lookup template.length template

/-- A segmentation of a template into literal chunks and `${name}`
placeholders. -/
inductive Seg where
  | lit (s : Str)
  | ph (n : Str)
deriving DecidableEq, Repr

def renderSeg : Seg → Str
  | .lit s => s
  | .ph n => '$' :: '\x7b' :: (n ++ ['\x7d'])

def renderSegs (segs : List Seg) : Str := (segs.map renderSeg).flatten

/-- Per-segment result of interpolation as the amended claim states it:
literals unchanged, a placeholder replaced by its nonempty mapped value and
left verbatim otherwise. -/
def interpSeg (lookup : Str → Option Str) : Seg → Str
  | .lit s => s
  | .ph n => phReplacement lookup n

def specInterp (lookup : Str → Option Str) (segs : List Seg) : Str :=
  (segs.map (interpSeg lookup)).flatten

/-- Whether the string contains a `${` occurrence. -/
def hasDollarBrace : Str → Bool
  | [] => false
  | c :: rest =>
    if c = '$' ∧ rest.head? = some '\x7b' then true else hasDollarBrace rest

/-- Well-formedness of a segmentation: literal chunks contain no `${` and do
not end in `$`; placeholder names contain no `}` and no newline. -/
def segOk : Seg → Prop
  | .lit s => hasDollarBrace s = false ∧ s.getLast? ≠ some '$'
  | .ph n => '\x7d' ∉ n ∧ '\n' ∉ n

def segFuel : Seg → Nat
  | .lit s => s.length
  | .ph _ => 1

def segsFuel (segs : List Seg) : Nat := (segs.map segFuel).sum

theorem splitAtBrace_concat (n r : Str) (h1 : '\x7d' ∉ n) (h2 : '\n' ∉ n) :
    splitAtBrace (n ++ '\x7d' :: r) = some (n, r) := by
  induction n with
  | nil => simp [splitAtBrace]
  | cons c n' ih =>
    simp only [List.mem_cons, not_or] at h1 h2
    have hc1 : ¬(c = '\x7d') := fun he => h1.1 he.symm
    have hc2 : ¬(c = '\n') := fun he => h2.1 he.symm
    simp [splitAtBrace, hc1, hc2, ih h1.2 h2.2]

theorem formatGoF_nil (lookup : Str → Option Str) (f : Nat) :
    formatGoF lookup f [] = [] := by
  cases f <;> rfl

theorem formatGoF_lit (lookup : Str → Option Str) (s : Str) :
    ∀ f tail, hasDollarBrace s = false → s.getLast? ≠ some '$' →
      formatGoF lookup (s.length + f) (s ++ tail) = s ++ formatGoF lookup f tail := by
  induction s with
  | nil => intro f tail _ _; simp
  | cons c s' ih =>
    intro f tail hdb hlast
    have hdb' : hasDollarBrace s' = false := by
      simp only [hasDollarBrace] at hdb
      by_cases hc : (c = '$' ∧ s'.head? = some '\x7b')
      · rw [if_pos hc] at hdb; cases hdb
      · rwa [if_neg hc] at hdb
    have hlast' : s'.getLast? ≠ some '$' := by
      cases s' with
      | nil => simp
      | cons d s'' =>
        intro h
        exact hlast (by rwa [List.getLast?_cons_cons])
    have hcond : ¬(c = '$' ∧ (s' ++ tail).head? = some '\x7b') := by
      rintro ⟨hc, hh⟩
      subst hc
      cases s' with
      | nil => exact hlast (by simp)
      | cons d s'' =>
        simp only [List.cons_append, List.head?_cons, Option.some.injEq] at hh
        simp [hasDollarBrace, hh] at hdb
    have hlen : (c :: s').length + f = (s'.length + f) + 1 := by
      simp only [List.length_cons]; omega
    rw [hlen, List.cons_append]
    simp only [formatGoF]
    rw [if_neg hcond, ih f tail hdb' hlast']
    rfl

theorem formatGoF_ph (lookup : Str → Option Str) (n tail : Str) (f : Nat)
    (h1 : '\x7d' ∉ n) (h2 : '\n' ∉ n) :
    formatGoF lookup (f + 1) ('$' :: '\x7b' :: (n ++ '\x7d' :: tail))
      = phReplacement lookup n ++ formatGoF lookup f tail := by
  simp [formatGoF, splitAtBrace_concat n tail h1 h2]

theorem formatGoF_segs (lookup : Str → Option Str) (segs : List Seg) :
    ∀ f tail, (∀ seg ∈ segs, segOk seg) →
      formatGoF lookup (segsFuel segs + f) (renderSegs segs ++ tail)
        = specInterp lookup segs ++ formatGoF lookup f tail := by
  induction segs with
  | nil => intro f tail _; simp [segsFuel, renderSegs, specInterp]
  | cons seg rest ih =>
    intro f tail hok
    have hseg := hok seg (by simp)
    have hrest : ∀ s ∈ rest, segOk s := fun s hs => hok s (by simp [hs])
    rcases seg with s | n
    · have h1 : renderSegs (.lit s :: rest) ++ tail = s ++ (renderSegs rest ++ tail) := by
        simp [renderSegs, renderSeg, List.append_assoc]
      have h2 : segsFuel (.lit s :: rest) + f = s.length + (segsFuel rest + f) := by
        simp only [segsFuel, segFuel, List.map_cons, List.sum_cons]; omega
      rw [h1, h2, formatGoF_lit lookup s (segsFuel rest + f) (renderSegs rest ++ tail)
        hseg.1 hseg.2, ih f tail hrest]
      simp [specInterp, interpSeg, List.append_assoc]
    · have h1 : renderSegs (.ph n :: rest) ++ tail
          = '$' :: '\x7b' :: (n ++ '\x7d' :: (renderSegs rest ++ tail)) := by
        simp [renderSegs, renderSeg, List.append_assoc]
      have h2 : segsFuel (.ph n :: rest) + f = (segsFuel rest + f) + 1 := by
        simp only [segsFuel, segFuel, List.map_cons, List.sum_cons]; omega
      rw [h1, h2, formatGoF_ph lookup n (renderSegs rest ++ tail) (segsFuel rest + f)
        hseg.1 hseg.2, ih f tail hrest]
      simp [specInterp, interpSeg, List.append_assoc]

theorem segsFuel_le (segs : List Seg) : segsFuel segs ≤ (renderSegs segs).length := by
  induction segs with
  | nil => simp [segsFuel, renderSegs]
  | cons seg rest ih =>
    have h1 : segsFuel (seg :: rest) = segFuel seg + segsFuel rest := by
      simp [segsFuel]
    have h2 : (renderSegs (seg :: rest)).length
        = (renderSeg seg).length + (renderSegs rest).length := by
      simp [renderSegs]
    have h3 : segFuel seg ≤ (renderSeg seg).length := by
      rcases seg with st | n
      · simp [segFuel, renderSeg]
      · simp only [segFuel, renderSeg, List.length_cons, List.length_append]
        omega
    rw [h1, h2]
    omega

/-- C8 (amended): interpolation substitutes every `${key}` whose key maps to
a nonempty value exactly once, and leaves every `${key}` verbatim when the
key is absent from the map or maps to the empty string — stated over any
well-formed segmentation of the template into literals and placeholders. -/
theorem format_placeholder_semantics (lookup : Str → Option Str) (segs : List Seg)
    (hok : ∀ seg ∈ segs, segOk seg) :
    format lookup (renderSegs segs) = specInterp lookup segs := by
  have hle := segsFuel_le segs
  have h := formatGoF_segs lookup segs ((renderSegs segs).length - segsFuel segs) [] hok
  rw [List.append_nil, formatGoF_nil, List.append_nil] at h
  have hfuel : segsFuel segs + ((renderSegs segs).length - segsFuel segs)
      = (renderSegs segs).length := by omega
  rw [hfuel] at h
  simp only [format]
  exact h

def witnessLookup : Str → Option Str :=
  fun n => if n = ("natives_directory".toList) then some ("/tmp/natives".toList) else none

theorem format_placeholder_semantics_witness :
    format witnessLookup
        (renderSegs [.lit ("-Djava.library.path=".toList),
          .ph ("natives_directory".toList), .lit (":".toList),
          .ph ("unknown_key".toList)])
      = specInterp witnessLookup
          [.lit ("-Djava.library.path=".toList), .ph ("natives_directory".toList),
           .lit (":".toList), .ph ("unknown_key".toList)] :=
  format_placeholder_semantics witnessLookup
    [.lit ("-Djava.library.path=".toList), .ph ("natives_directory".toList),
     .lit (":".toList), .ph ("unknown_key".toList)]
    (by intro seg hseg; fin_cases hseg <;> exact ⟨by decide, by decide⟩)

def emptyValLookup : Str → Option Str :=
  fun n => if n = ("a".toList) then some [] else none

/-- C8 counterexample: the key `a` is present in the map (with the empty
string as value), yet `${a}` is not substituted — the `value || key` fallback
treats the empty value as unknown, contradicting the claim that every key in
the map is substituted. -/
theorem format_empty_value_counterexample :
    format emptyValLookup ("$\x7ba\x7d".toList) = ("$\x7ba\x7d".toList)
    ∧ emptyValLookup ("a".toList) = some []
    ∧ ¬(("$\x7ba\x7d".toList : Str) = []) :=
  ⟨by decide, by decide, by decide⟩

end Launcher
